import Mathlib

/-!
# Verification of the recipe matching-and-ranking engine

A shallow embedding of `src/recipe_helper.py` (ingredient normalization,
set-based recipe scoring, diet filtering, deterministic ranking, substitution
lookup, and recipe resolution by index or title substring), together with
proofs of the specified properties.

Python strings are modelled as `List Char` (Python compares strings by code
point, which coincides with the lexicographic order on `List Char`).  The
recipe catalog, a process-wide constant in the Python module, is passed
explicitly as a parameter, allowing the properties to be stated for every
catalog.
-/

namespace RecipeHelper

/-- Python strings, modelled as lists of characters. -/
abbrev Str := List Char

/-- The upper-case/lower-case letter pairs of the ASCII range. -/
def upperLower : List (Char × Char) :=
  [('A', 'a'), ('B', 'b'), ('C', 'c'), ('D', 'd'), ('E', 'e'), ('F', 'f'),
   ('G', 'g'), ('H', 'h'), ('I', 'i'), ('J', 'j'), ('K', 'k'), ('L', 'l'),
   ('M', 'm'), ('N', 'n'), ('O', 'o'), ('P', 'p'), ('Q', 'q'), ('R', 'r'),
   ('S', 's'), ('T', 't'), ('U', 'u'), ('V', 'v'), ('W', 'w'), ('X', 'x'),
   ('Y', 'y'), ('Z', 'z')]

/-- Lower-casing of a single character, as Python's `str.lower` acts on the
ASCII range (the repository's data is ASCII). -/
def pyCharLower (c : Char) : Char :=
  ((upperLower.find? (fun p => p.1 = c)).map Prod.snd).getD c

/-- Python's `str.lower`. -/
def pyLower (s : Str) : Str := s.map pyCharLower

/-- The characters removed by Python's `str.strip()` (ASCII whitespace). -/
def isSpace (c : Char) : Bool :=
  c = ' ' || c = '\t' || c = '\n' || c = '\r' || c = '\x0b' || c = '\x0c'

/-- Python's `str.lstrip()`. -/
def lstrip (s : Str) : Str := s.dropWhile isSpace

/-- Python's `str.rstrip()`. -/
def rstrip (s : Str) : Str := (s.reverse.dropWhile isSpace).reverse

/-- Python's `str.strip()`. -/
def strip (s : Str) : Str := rstrip (lstrip s)

/-- The function `normalize` from `recipe_helper.py`: `text.lower().strip()`. -/
def normalize (s : Str) : Str := strip (pyLower s)

/-- Python's `text.replace(';', ',')`. -/
def pyReplaceSemi (s : Str) : Str := s.map (fun c => if c = ';' then ',' else c)

/-- The function `parse_ingredients` from `recipe_helper.py`:
`parts = [p.strip() for p in text.replace(';', ',').split(',') if p.strip()]`
followed by `[normalize(p) for p in parts]`.
(`List.splitOn` has exactly the semantics of Python's `str.split(sep)`:
it keeps empty fragments between adjacent separators.) -/
def parse_ingredients (text : Str) : List Str :=
  let parts := (((pyReplaceSemi text).splitOn ',').map strip).filter (· ≠ [])
  parts.map normalize

/-- A recipe record: the catalog-schema fields used by the core
(`title`, `ingredients`, `steps`, `time`, `diets`).  In the Python code a
recipe is a dict accessed with `r.get(field, default)`; the defaults are the
empty collections, so a plain structure is faithful. -/
structure Recipe where
  title : Str
  ingredients : List Str
  steps : List Str
  time : Str
  diets : List Str
deriving DecidableEq

/-- The empty dict `{}` that `find_recipe_by_title_or_index` returns when
nothing resolves: every field reads as its default. -/
def emptyRecipe : Recipe := ⟨[], [], [], [], []⟩

/-- The set `ing_set = set([normalize(i) for i in ingredients])`. -/
def ingSet (ingredients : List Str) : Finset Str :=
  (ingredients.map normalize).toFinset

/-- The score `count = len(ing_set & recipe_ings)` where
`recipe_ings = set([normalize(i) for i in r.get("ingredients", [])])`. -/
def matchCount (s : Finset Str) (r : Recipe) : Nat :=
  (s ∩ (r.ingredients.map normalize).toFinset).card

/-- The diet filter of `match_recipes`:
`if diet:` (false for Python `None` and for the empty string) followed by
`if normalize(diet) not in [normalize(d) for d in r.get("diets", [])]: continue`. -/
def dietPass (diet : Option Str) (r : Recipe) : Bool :=
  match diet with
  | none => true
  | some d => if d = [] then true else normalize d ∈ r.diets.map normalize

/-- The sort key `lambda x: (-x[1], x[0]["title"])` of `match_recipes`, read
as a non-strict total preorder: `x` may precede `y` iff `x`'s count is larger,
or the counts are equal and `x`'s raw title is lexicographically `≤ y`'s.
Python's `list.sort` is a stable sort with respect to exactly this preorder. -/
def keyLE (x y : Recipe × Nat) : Prop :=
  y.2 < x.2 ∨ (x.2 = y.2 ∧ x.1.title ≤ y.1.title)

instance : DecidableRel keyLE := fun x y => by
  unfold keyLE; infer_instance

instance : IsTotal (Recipe × Nat) keyLE where
  total x y := by
    rcases Nat.lt_trichotomy x.2 y.2 with h | h | h
    · exact Or.inr (Or.inl h)
    · rcases le_total x.1.title y.1.title with ht | ht
      · exact Or.inl (Or.inr ⟨h, ht⟩)
      · exact Or.inr (Or.inr ⟨h.symm, ht⟩)
    · exact Or.inl (Or.inl h)

instance : IsTrans (Recipe × Nat) keyLE where
  trans x y z hxy hyz := by
    rcases hxy with h1 | ⟨h1, t1⟩ <;> rcases hyz with h2 | ⟨h2, t2⟩
    · exact Or.inl (h2.trans h1)
    · exact Or.inl (h2 ▸ h1)
    · exact Or.inl (h1 ▸ h2)
    · exact Or.inr ⟨h1.trans h2, t1.trans t2⟩

/-- The unsorted `matches` list built by the loop of `match_recipes`: walk the
catalog in order; `continue` on a failed diet check; append `(r, count)` when
`count >= min_match`. -/
def match_candidates (catalog : List Recipe) (s : Finset Str) (min_match : Int)
    (diet : Option Str) : List (Recipe × Nat) :=
  catalog.filterMap (fun r =>
    if dietPass diet r then
      let count := matchCount s r
      if min_match ≤ (count : Int) then some (r, count) else none
    else none)

/-- The function `match_recipes` from `recipe_helper.py`: build `matches`, then
`matches.sort(key=lambda x: (-x[1], x[0]["title"]))` (a stable sort). -/
def match_recipes (catalog : List Recipe) (ingredients : List Str)
    (min_match : Int) (diet : Option Str) : List (Recipe × Nat) :=
  List.insertionSort keyLE (match_candidates catalog (ingSet ingredients) min_match diet)

/-- The static `SUBSTITUTIONS` dict of `recipe_helper.py`, as an association
list (its keys are pairwise distinct, so `find?` lookup agrees with the dict). -/
def SUBSTITUTIONS : List (Str × Str) :=
  [("butter".toList, "oil".toList),
   ("milk".toList, "plant milk or water".toList),
   ("egg".toList, "mashed banana or applesauce (for baking)".toList),
   ("sour cream".toList, "yogurt".toList),
   ("cream".toList, "milk".toList),
   ("broth".toList, "water + seasoning".toList),
   ("chicken".toList, "tofu or chickpeas".toList),
   ("beef".toList, "lentils or mushrooms".toList),
   ("fish".toList, "tofu or beans".toList)]

/-- The fixed message returned on a failed substitution lookup.  (The
character 39 is the apostrophe of the Python literal
`"I don_t have a suggestion for that ingredient"`.) -/
def noSuggestionMsg : Str :=
  "I don".toList ++ [Char.ofNat 39] ++ "t have a suggestion for that ingredient".toList

/-- The function `suggest_substitute` from `recipe_helper.py`:
`SUBSTITUTIONS.get(normalize(ingredient), <fixed message>)`. -/
def suggest_substitute (ingredient : Str) : Str :=
  match SUBSTITUTIONS.find? (fun p => p.1 = normalize ingredient) with
  | some p => p.2
  | none => noSuggestionMsg

/-- Python `str.isdigit` on ASCII data: non-empty and every character a
decimal digit. -/
def pyIsDigit (s : Str) : Bool := !s.isEmpty && s.all Char.isDigit

/-- Python `int(q)` on a digit string: its decimal value. -/
def strToNat (s : Str) : Nat := s.foldl (fun n c => 10 * n + (c.toNat - 48)) 0

/-- The title-scan loop of `find_recipe_by_title_or_index`: return the first
recipe whose normalized title contains `q` as a substring, else the empty
dict. -/
def scanTitle (catalog : List Recipe) (q : Str) : Recipe :=
  match catalog.find? (fun r => decide (q <:+: normalize r.title)) with
  | some r => r
  | none => emptyRecipe

/-- The function `find_recipe_by_title_or_index` from `recipe_helper.py`:
normalize the query; if it `isdigit()`, try it as the 1-based index
`idx = int(q) - 1` into the full catalog (`0 <= idx < len(RECIPES)`);
otherwise, or when the index is out of range, fall to the title scan. -/
def find_recipe_by_title_or_index (catalog : List Recipe) (query : Str) : Recipe :=
  let q := normalize query
  if pyIsDigit q then
    let idx : Int := (strToNat q : Int) - 1
    if 0 ≤ idx ∧ idx < (catalog.length : Int) then
      catalog.getD idx.toNat emptyRecipe
    else scanTitle catalog q
  else scanTitle catalog q

/-- The function `get_available_diets` from `recipe_helper.py`: union every `diets` field
into a set, then `sorted(...)` ascending.  (The Python `set` is modelled by
`dedup`; since the sort output is strictly ascending it does not depend on
the pre-sort order, so the model is faithful to `sorted(list(set(...)))`.) -/
def get_available_diets (catalog : List Recipe) : List Str :=
  List.insertionSort (· ≤ ·) ((catalog.flatMap (fun r => r.diets)).dedup)

/-- A sample recipe (Recipe A of the specification examples). -/
def wA : Recipe :=
  ⟨"A".toList, ["chicken".toList, "rice".toList, "broccoli".toList], [], [],
    ["halal".toList]⟩

/-- A sample recipe whose title contains the digit 9. -/
def w9 : Recipe := ⟨"Recipe 9 stew".toList, [], [], [], []⟩

/-- A sample five-recipe catalog. -/
def catalog5 : List Recipe :=
  [⟨"Ra".toList, [], [], [], []⟩, ⟨"Rb".toList, [], [], [], []⟩,
   ⟨"Rc".toList, [], [], [], []⟩, ⟨"Rd".toList, [], [], [], []⟩,
   ⟨"Re".toList, [], [], [], []⟩]

/-- Proposition: `res` is the first element of `catalog` whose normalized title contains
`q` as a substring. -/
def FirstTitleMatch (catalog : List Recipe) (q : Str) (res : Recipe) : Prop :=
  ∃ pre post, catalog = pre ++ res :: post ∧ q <:+: normalize res.title ∧
    ∀ r ∈ pre, ¬ q <:+: normalize r.title

/-! ## Basic facts about the string primitives -/

theorem pyCharLower_eq_of_find? {c : Char} {p : Char × Char}
    (h : upperLower.find? (fun q => q.1 = c) = some p) : pyCharLower c = p.2 := by
  unfold pyCharLower
  rw [h]
  rfl

theorem pyCharLower_eq_self_of_find? {c : Char}
    (h : upperLower.find? (fun q => q.1 = c) = none) : pyCharLower c = c := by
  unfold pyCharLower
  rw [h]
  rfl

theorem isSpace_pyCharLower (c : Char) : isSpace (pyCharLower c) = isSpace c := by
  rcases h : upperLower.find? (fun q => q.1 = c) with _ | p
  · simp only [pyCharLower_eq_self_of_find? h]
  · rw [pyCharLower_eq_of_find? h]
    have hmem := List.mem_of_find?_eq_some h
    have hc : p.1 = c := by simpa using List.find?_some h
    have hboth : ∀ q ∈ upperLower, isSpace q.2 = false ∧ isSpace q.1 = false := by decide
    rw [(hboth p hmem).1, ← hc, (hboth p hmem).2]

theorem pyCharLower_idem (c : Char) :
    pyCharLower (pyCharLower c) = pyCharLower c := by
  rcases h : upperLower.find? (fun q => q.1 = c) with _ | p
  · simp only [pyCharLower_eq_self_of_find? h]
  · simp only [pyCharLower_eq_of_find? h]
    have hmem := List.mem_of_find?_eq_some h
    have hlow : ∀ q ∈ upperLower, pyCharLower q.2 = q.2 := by decide
    exact hlow p hmem

theorem pyLower_idem (s : Str) : pyLower (pyLower s) = pyLower s := by
  simp [pyLower, List.map_map, Function.comp_def, pyCharLower_idem]

theorem lstrip_pyLower (s : Str) : lstrip (pyLower s) = pyLower (lstrip s) := by
  simp [lstrip, pyLower, List.dropWhile_map, Function.comp_def, isSpace_pyCharLower]

theorem rstrip_pyLower (s : Str) : rstrip (pyLower s) = pyLower (rstrip s) := by
  simp [rstrip, pyLower, ← List.map_reverse, List.dropWhile_map, Function.comp_def,
    isSpace_pyCharLower]

theorem strip_pyLower (s : Str) : strip (pyLower s) = pyLower (strip s) := by
  simp [strip, lstrip_pyLower, rstrip_pyLower]

theorem normalize_eq_pyLower_strip (s : Str) : normalize s = pyLower (strip s) := by
  simp [normalize, strip_pyLower]

theorem dropWhile_isSpace_idem (l : Str) :
    List.dropWhile isSpace (List.dropWhile isSpace l) = List.dropWhile isSpace l := by
  rcases h : List.dropWhile isSpace l with _ | ⟨a, t⟩
  · rfl
  · have w : List.dropWhile isSpace l ≠ [] := by rw [h]; simp
    have hhd := List.head_dropWhile_not isSpace l w
    have hha : (List.dropWhile isSpace l).head w = a := by
      have h2 := congrArg List.head? h
      rw [List.head?_eq_head w] at h2
      simpa using h2
    rw [hha] at hhd
    simp [List.dropWhile_cons, hhd]

theorem lstrip_idem (s : Str) : lstrip (lstrip s) = lstrip s :=
  dropWhile_isSpace_idem s

theorem rstrip_idem (s : Str) : rstrip (rstrip s) = rstrip s := by
  unfold rstrip
  rw [List.reverse_reverse, dropWhile_isSpace_idem]

/-- A left-stripped list stays left-stripped after right-stripping. -/
theorem lstrip_rstrip_of_lstripped (s : Str) (h : lstrip s = s) :
    lstrip (rstrip s) = rstrip s := by
  rcases hr : rstrip s with _ | ⟨a, t⟩
  · rfl
  · have hpre : rstrip s <+: s := by
      rw [rstrip, ← List.reverse_suffix]
      simpa using List.dropWhile_suffix (l := s.reverse) (p := isSpace)
    rw [hr] at hpre
    obtain ⟨u, hu⟩ := hpre
    have hs : s = a :: (t ++ u) := by rw [← hu]; simp
    have hhead : isSpace a = false := by
      have hls : lstrip (a :: (t ++ u)) = a :: (t ++ u) := by rw [← hs]; exact h
      rw [lstrip, List.dropWhile_cons] at hls
      cases hsp : isSpace a with
      | false => rfl
      | true =>
        rw [hsp] at hls
        simp only [if_pos] at hls
        have hlen := congrArg List.length hls
        have hle : (List.dropWhile isSpace (t ++ u)).length ≤ (t ++ u).length :=
          (List.dropWhile_suffix isSpace).sublist.length_le
        simp only [List.length_cons] at hlen
        omega
    simp [lstrip, List.dropWhile_cons, hhead]

theorem strip_idem (s : Str) : strip (strip s) = strip s := by
  unfold strip
  rw [lstrip_rstrip_of_lstripped (lstrip s) (lstrip_idem s), rstrip_idem]

theorem strip_nonempty_of_stripped {s : Str} (h : strip s = s) (hne : s ≠ []) :
    normalize s ≠ [] := by
  rw [normalize_eq_pyLower_strip, h]
  simp [pyLower, hne]

/-- The output of `normalize` is already stripped. -/
theorem strip_normalize (s : Str) : strip (normalize s) = normalize s := by
  rw [normalize_eq_pyLower_strip, strip_pyLower, strip_idem]

/-- The output of `normalize` is already lower-case. -/
theorem pyLower_normalize (s : Str) : pyLower (normalize s) = normalize s := by
  rw [normalize_eq_pyLower_strip, pyLower_idem]

/-! ## Facts about the match engine -/

/-- Membership in the unsorted candidate list, unfolded. -/
theorem mem_match_candidates {catalog : List Recipe} {s : Finset Str}
    {min_match : Int} {diet : Option Str} {r : Recipe} {c : Nat} :
    (r, c) ∈ match_candidates catalog s min_match diet ↔
      r ∈ catalog ∧ dietPass diet r = true ∧ c = matchCount s r ∧
        min_match ≤ (c : Int) := by
  unfold match_candidates
  rw [List.mem_filterMap]
  constructor
  · rintro ⟨a, ha, hf⟩
    by_cases hd : dietPass diet a
    · rw [if_pos hd] at hf
      by_cases hm : min_match ≤ (matchCount s a : Int)
      · rw [if_pos hm] at hf
        obtain ⟨rfl, rfl⟩ : a = r ∧ matchCount s a = c := by
          have := Option.some.inj hf
          exact ⟨congrArg Prod.fst this, congrArg Prod.snd this⟩
        exact ⟨ha, hd, rfl, hm⟩
      · rw [if_neg hm] at hf; cases hf
    · rw [if_neg hd] at hf; cases hf
  · rintro ⟨hr, hd, rfl, hm⟩
    exact ⟨r, hr, by rw [if_pos hd, if_pos hm]⟩

/-- Membership in `match_recipes` output, unfolded. -/
theorem mem_match_recipes {catalog : List Recipe} {ingredients : List Str}
    {min_match : Int} {diet : Option Str} {r : Recipe} {c : Nat} :
    (r, c) ∈ match_recipes catalog ingredients min_match diet ↔
      r ∈ catalog ∧ dietPass diet r = true ∧ c = matchCount (ingSet ingredients) r ∧
        min_match ≤ (c : Int) := by
  unfold match_recipes
  rw [List.mem_insertionSort, mem_match_candidates]

/-- The diet filter, spelled out: it only constrains a given, non-empty diet. -/
theorem dietPass_iff {diet : Option Str} {r : Recipe} :
    dietPass diet r = true ↔
      ∀ d, diet = some d → d ≠ [] → normalize d ∈ r.diets.map normalize := by
  cases diet with
  | none => simp [dietPass]
  | some d => by_cases hd : d = [] <;> simp [dietPass, hd]

/-- A successful `find?` returns the first element satisfying the predicate. -/
theorem find?_first {α : Type} (p : α → Bool) :
    ∀ (l : List α) {a : α}, l.find? p = some a →
      ∃ pre post, l = pre ++ a :: post ∧ p a = true ∧ ∀ x ∈ pre, p x = false
  | [], a => by intro h; cases h
  | x :: xs, a => by
    intro h
    rw [List.find?_cons] at h
    cases hp : p x with
    | true =>
      rw [hp] at h
      obtain rfl : x = a := Option.some.inj h
      exact ⟨[], xs, rfl, hp, by simp⟩
    | false =>
      rw [hp] at h
      obtain ⟨pre, post, rfl, hpa, hpre⟩ := find?_first p xs h
      exact ⟨x :: pre, post, rfl, hpa, by
        intro y hy
        rcases List.mem_cons.mp hy with rfl | hy
        · exact hp
        · exact hpre y hy⟩

/-- When some title matches, the scan returns the first matching recipe. -/
theorem scanTitle_found {catalog : List Recipe} {q : Str}
    (h : ∃ r ∈ catalog, q <:+: normalize r.title) :
    FirstTitleMatch catalog q (scanTitle catalog q) := by
  obtain ⟨r, hr, hq⟩ := h
  rcases hf : catalog.find? (fun r => decide (q <:+: normalize r.title)) with _ | a
  · rw [List.find?_eq_none] at hf
    exact absurd (by simpa using hq) (by simpa using hf r hr)
  · have hs : scanTitle catalog q = a := by unfold scanTitle; rw [hf]
    obtain ⟨pre, post, hcat, hpa, hpre⟩ := find?_first _ catalog hf
    rw [hs]
    exact ⟨pre, post, hcat, by simpa using hpa, fun x hx => by simpa using hpre x hx⟩

/-- When no title matches, the scan returns the empty dict. -/
theorem scanTitle_none {catalog : List Recipe} {q : Str}
    (h : ∀ r ∈ catalog, ¬ q <:+: normalize r.title) :
    scanTitle catalog q = emptyRecipe := by
  unfold scanTitle
  rw [List.find?_eq_none.mpr (fun r hr => by simpa using h r hr)]

/-- The scan result is a catalog member or the empty dict. -/
theorem scanTitle_mem_or_empty (catalog : List Recipe) (q : Str) :
    scanTitle catalog q ∈ catalog ∨ scanTitle catalog q = emptyRecipe := by
  rcases hf : catalog.find? (fun r => decide (q <:+: normalize r.title)) with _ | a
  · right
    unfold scanTitle
    rw [hf]
  · left
    have hs : scanTitle catalog q = a := by unfold scanTitle; rw [hf]
    rw [hs]
    exact List.mem_of_find?_eq_some hf

/-! ## Facts about the recipe resolver -/

/-- The numeric branch of the resolver, when the 1-based index is in range. -/
theorem find_recipe_eq_getD {catalog : List Recipe} {query : Str}
    (hdig : pyIsDigit (normalize query) = true)
    (hcond : 0 ≤ (strToNat (normalize query) : Int) - 1 ∧
      (strToNat (normalize query) : Int) - 1 < (catalog.length : Int)) :
    find_recipe_by_title_or_index catalog query =
      catalog.getD ((strToNat (normalize query) : Int) - 1).toNat emptyRecipe := by
  unfold find_recipe_by_title_or_index
  rw [if_pos hdig, if_pos hcond]

/-- The resolver falls to the title scan when the query is not numeric or the
index is out of range. -/
theorem find_recipe_eq_scan {catalog : List Recipe} {query : Str}
    (h : pyIsDigit (normalize query) = false ∨
      ¬(0 ≤ (strToNat (normalize query) : Int) - 1 ∧
        (strToNat (normalize query) : Int) - 1 < (catalog.length : Int))) :
    find_recipe_by_title_or_index catalog query =
      scanTitle catalog (normalize query) := by
  unfold find_recipe_by_title_or_index
  rcases h with h | h
  · rw [if_neg (by simp [h])]
  · by_cases hdig : pyIsDigit (normalize query) = true
    · rw [if_pos hdig, if_neg h]
    · rw [if_neg hdig]

/-- Normalizing an all-whitespace string yields the empty string. -/
theorem normalize_eq_nil_of_all_space {s : Str} (h : ∀ c ∈ s, isSpace c = true) :
    normalize s = [] := by
  have hl : lstrip (pyLower s) = [] := by
    rw [lstrip, List.dropWhile_eq_nil_iff]
    intro x hx
    obtain ⟨c, hc, rfl⟩ := List.mem_map.mp hx
    rw [isSpace_pyCharLower]
    exact h c hc
  rw [normalize, strip, hl]
  rfl

/-! ## The claims -/

/-- C1: a catalog recipe appears in `match_recipes(ingredients, min_match,
diet)` iff (when `diet` is given and non-empty, the normalized diet is among
the recipe's normalized diets) and the size of the intersection of the
normalized ingredient set with the recipe's normalized ingredient set is at
least `min_match`; recipes failing either condition are absent. -/
theorem match_recipes_membership_iff (catalog : List Recipe) (ingredients : List Str)
    (min_match : Int) (diet : Option Str) (r : Recipe) (hr : r ∈ catalog) :
    (∃ c, (r, c) ∈ match_recipes catalog ingredients min_match diet) ↔
      ((∀ d, diet = some d → d ≠ [] → normalize d ∈ r.diets.map normalize) ∧
        min_match ≤ (matchCount (ingSet ingredients) r : Int)) := by
  constructor
  · rintro ⟨c, hc⟩
    rw [mem_match_recipes] at hc
    obtain ⟨-, hd, rfl, hm⟩ := hc
    exact ⟨dietPass_iff.mp hd, hm⟩
  · rintro ⟨hd, hm⟩
    exact ⟨_, mem_match_recipes.mpr ⟨hr, dietPass_iff.mpr hd, rfl, hm⟩⟩

/-- Witness for C1 at a concrete catalog, ingredient list and diet. -/
theorem match_recipes_membership_iff_witness :
    ∃ c, (wA, c) ∈ match_recipes [wA]
      ["chicken".toList, "rice".toList, "garlic".toList] 2 (some ("halal".toList)) :=
  (match_recipes_membership_iff [wA] _ 2 _ wA (by decide)).mpr
    ⟨fun d hd _ => by cases hd; decide, by decide⟩

/-- C3: `parse_ingredients` splits on comma or semicolon, trims each
fragment, discards empty fragments, and lower-cases the rest preserving
order and duplicates; every output token is lower-case, trimmed and
non-empty; the empty and all-separator inputs yield the empty list.  (The
function is total, so no input raises.) -/
theorem parse_ingredients_spec (text : Str) :
    parse_ingredients text =
      ((((pyReplaceSemi text).splitOn ',').map strip).filter (· ≠ [])).map pyLower ∧
    (∀ tok ∈ parse_ingredients text, pyLower tok = tok ∧ strip tok = tok ∧ tok ≠ []) ∧
    parse_ingredients [] = [] ∧
    parse_ingredients (",, ,".toList) = [] := by
  refine ⟨?_, ?_, by decide, by decide⟩
  · unfold parse_ingredients
    apply List.map_congr_left
    intro p hp
    obtain ⟨hp1, -⟩ := List.mem_filter.mp hp
    obtain ⟨q, -, rfl⟩ := List.mem_map.mp hp1
    rw [normalize_eq_pyLower_strip, strip_idem]
  · intro tok htok
    unfold parse_ingredients at htok
    obtain ⟨p, hp, rfl⟩ := List.mem_map.mp htok
    obtain ⟨hp1, hp2⟩ := List.mem_filter.mp hp
    obtain ⟨q, -, rfl⟩ := List.mem_map.mp hp1
    refine ⟨pyLower_normalize _, strip_normalize _, ?_⟩
    exact strip_nonempty_of_stripped (strip_idem q) (by simpa using hp2)

/-- Witness for C3 at a concrete input. -/
theorem parse_ingredients_spec_witness :
    pyLower ("egg".toList) = "egg".toList ∧ strip ("egg".toList) = "egg".toList ∧
      "egg".toList ≠ [] :=
  (parse_ingredients_spec (" EGG ; milk".toList)).2.1 ("egg".toList) (by decide)

/-- C5: `suggest_substitute` normalizes its input and does an exact-key
lookup in the static table, so `suggest_substitute("Butter")` is `"oil"`;
on a missing key it returns the fixed no-suggestion message; it is total and
always returns a non-empty string. -/
theorem suggest_substitute_spec :
    suggest_substitute ("Butter".toList) = "oil".toList ∧
    (∀ ing : Str, normalize ing ∉ SUBSTITUTIONS.map Prod.fst →
      suggest_substitute ing = noSuggestionMsg) ∧
    (∀ ing : Str, suggest_substitute ing ≠ []) := by
  refine ⟨by decide, ?_, ?_⟩
  · intro ing h
    unfold suggest_substitute
    rw [List.find?_eq_none.mpr (fun p hp => by
      simp only [decide_eq_true_eq]
      exact fun hc => h (List.mem_map.mpr ⟨p, hp, hc⟩))]
  · intro ing
    rcases hf : SUBSTITUTIONS.find? (fun p => p.1 = normalize ing) with _ | p
    · have hval : suggest_substitute ing = noSuggestionMsg := by
        unfold suggest_substitute
        rw [hf]
      rw [hval]
      decide
    · have hval : suggest_substitute ing = p.2 := by
        unfold suggest_substitute
        rw [hf]
      rw [hval]
      exact (by decide : ∀ q ∈ SUBSTITUTIONS, q.2 ≠ []) p (List.mem_of_find?_eq_some hf)

/-- Witness for C5 at a concrete non-key input. -/
theorem suggest_substitute_spec_witness :
    suggest_substitute ("kale".toList) = noSuggestionMsg :=
  suggest_substitute_spec.2.1 ("kale".toList) (by decide)

/-- C7: `match_recipes` treats its ingredient list as a set: two ingredient
lists with the same normalized-element set give identical, identically
ordered output, and a repeated call with identical arguments gives identical
output. -/
theorem match_recipes_set_extensional (catalog : List Recipe) (min_match : Int)
    (diet : Option Str) (i1 i2 : List Str) (h : ingSet i1 = ingSet i2) :
    match_recipes catalog i1 min_match diet = match_recipes catalog i2 min_match diet ∧
    match_recipes catalog i1 min_match diet = match_recipes catalog i1 min_match diet := by
  constructor
  · unfold match_recipes
    rw [h]
  · rfl

/-- Witness for C7: a permuted list with a duplicate gives the same output. -/
theorem match_recipes_set_extensional_witness :
    match_recipes [wA] ["rice".toList, "chicken".toList, "rice".toList] 1 none =
      match_recipes [wA] ["chicken".toList, "rice".toList] 1 none :=
  (match_recipes_set_extensional [wA] 1 none _ _ (by decide)).1

/-- C2: `match_recipes` output is ordered by match count descending with
ties broken by raw stored title ascending (`keyLE`), and entries with equal
(count, title) pairs keep their relative catalog order: their subsequence in
the output equals their subsequence in the catalog-ordered candidate list. -/
theorem match_recipes_ranking_stable (catalog : List Recipe) (ingredients : List Str)
    (min_match : Int) (diet : Option Str) :
    (match_recipes catalog ingredients min_match diet).Pairwise keyLE ∧
    ∀ c t, (match_recipes catalog ingredients min_match diet).filter
          (fun rc => decide (rc.2 = c ∧ rc.1.title = t)) =
        (match_candidates catalog (ingSet ingredients) min_match diet).filter
          (fun rc => decide (rc.2 = c ∧ rc.1.title = t)) := by
  constructor
  · unfold match_recipes
    exact List.sorted_insertionSort keyLE _
  · intro c t
    set p : Recipe × Nat → Bool := fun rc => decide (rc.2 = c ∧ rc.1.title = t) with hp
    set cands := match_candidates catalog (ingSet ingredients) min_match diet with hc
    have hpair : (cands.filter p).Pairwise keyLE := by
      apply List.pairwise_of_forall_mem_list
      intro a ha b hb
      have ha2 := (List.mem_filter.mp ha).2
      have hb2 := (List.mem_filter.mp hb).2
      rw [hp] at ha2 hb2
      simp only [decide_eq_true_eq] at ha2 hb2
      exact Or.inr ⟨ha2.1.trans hb2.1.symm, le_of_eq (ha2.2.trans hb2.2.symm)⟩
    have hsub : (cands.filter p).Sublist
        (match_recipes catalog ingredients min_match diet) :=
      List.sublist_insertionSort hpair (List.filter_sublist cands)
    have hsub2 : (cands.filter p).Sublist
        ((match_recipes catalog ingredients min_match diet).filter p) := by
      have h2 := hsub.filter p
      have hpp : (cands.filter fun a => p a && p a) = cands.filter p :=
        List.filter_congr (fun a _ => by cases p a <;> simp)
      rwa [List.filter_filter, hpp] at h2
    have hlen : ((match_recipes catalog ingredients min_match diet).filter p).length
        = (cands.filter p).length :=
      ((List.perm_insertionSort keyLE cands).filter p).length_eq
    exact (hsub2.eq_of_length hlen.symm).symm

/-- Witness for C2 at a concrete call. -/
theorem match_recipes_ranking_stable_witness :
    (match_recipes [wA] ["chicken".toList] 1 none).Pairwise keyLE :=
  (match_recipes_ranking_stable [wA] ["chicken".toList] 1 none).1

/-- C4: when the normalized query is all digits and in range as a 1-based
index, the resolver returns the catalog entry at that position; when it is
not numeric, the resolver returns the first catalog recipe whose normalized
title contains the normalized query as a substring. -/
theorem find_recipe_index_or_title (catalog : List Recipe) (query : Str) :
    (pyIsDigit (normalize query) = true →
      1 ≤ strToNat (normalize query) →
      strToNat (normalize query) ≤ catalog.length →
      catalog.get? (strToNat (normalize query) - 1) =
        some (find_recipe_by_title_or_index catalog query)) ∧
    (pyIsDigit (normalize query) = false →
      (∃ r ∈ catalog, normalize query <:+: normalize r.title) →
      FirstTitleMatch catalog (normalize query)
        (find_recipe_by_title_or_index catalog query)) := by
  constructor
  · intro hdig h1 h2
    have hcond : 0 ≤ (strToNat (normalize query) : Int) - 1 ∧
        (strToNat (normalize query) : Int) - 1 < (catalog.length : Int) := by omega
    rw [find_recipe_eq_getD hdig hcond]
    have htn : ((strToNat (normalize query) : Int) - 1).toNat
        = strToNat (normalize query) - 1 := by omega
    have hlt : strToNat (normalize query) - 1 < catalog.length := by omega
    rw [htn, List.get?_eq_getElem?, List.getD_eq_getElem?_getD,
      List.getElem?_eq_getElem hlt]
    rfl
  · intro hdig hex
    rw [find_recipe_eq_scan (Or.inl hdig)]
    exact scanTitle_found hex

/-- Witness for C4: on a five-recipe catalog, query number 3 resolves to the
third catalog entry. -/
theorem find_recipe_index_or_title_witness :
    catalog5.get? (strToNat (normalize ("3".toList)) - 1) =
      some (find_recipe_by_title_or_index catalog5 ("3".toList)) :=
  (find_recipe_index_or_title catalog5 ("3".toList)).1 (by decide) (by decide) (by decide)

/-- C6: `get_available_diets` returns exactly the union of every recipe's
diets, deduplicated, in ascending lexicographic order. -/
theorem get_available_diets_spec (catalog : List Recipe) :
    (∀ t : Str, t ∈ get_available_diets catalog ↔ ∃ r ∈ catalog, t ∈ r.diets) ∧
    (get_available_diets catalog).Nodup ∧
    (get_available_diets catalog).Pairwise (· ≤ ·) := by
  refine ⟨?_, ?_, ?_⟩
  · intro t
    unfold get_available_diets
    rw [List.mem_insertionSort, List.mem_dedup, List.mem_flatMap]
  · unfold get_available_diets
    exact ((List.perm_insertionSort _ _).symm).nodup (List.nodup_dedup _)
  · unfold get_available_diets
    exact List.sorted_insertionSort _ _

/-- Witness for C6 at a concrete catalog. -/
theorem get_available_diets_spec_witness :
    ("halal".toList ∈ get_available_diets [wA] ↔ ∃ r ∈ [wA], "halal".toList ∈ r.diets) :=
  (get_available_diets_spec [wA]).1 ("halal".toList)

/-- C8: the resolver always returns either a catalog member or the empty
dict; when the query resolves neither as an in-range numeric index nor as a
title substring it returns the empty dict; and the empty dict is
distinguishable from every recipe of a catalog whose titles are non-empty.
(The function is total, so it never raises, and its return type is `Recipe`,
never `None`.) -/
theorem find_recipe_not_found_sentinel (catalog : List Recipe) (query : Str) :
    (find_recipe_by_title_or_index catalog query ∈ catalog ∨
      find_recipe_by_title_or_index catalog query = emptyRecipe) ∧
    ((∀ r ∈ catalog, ¬ normalize query <:+: normalize r.title) →
      ¬(pyIsDigit (normalize query) = true ∧ 1 ≤ strToNat (normalize query) ∧
          strToNat (normalize query) ≤ catalog.length) →
      find_recipe_by_title_or_index catalog query = emptyRecipe) ∧
    ((∀ r ∈ catalog, r.title ≠ []) → emptyRecipe ∉ catalog) := by
  refine ⟨?_, ?_, ?_⟩
  · by_cases hdig : pyIsDigit (normalize query) = true
    · by_cases hcond : 0 ≤ (strToNat (normalize query) : Int) - 1 ∧
          (strToNat (normalize query) : Int) - 1 < (catalog.length : Int)
      · left
        rw [find_recipe_eq_getD hdig hcond]
        have hlt : ((strToNat (normalize query) : Int) - 1).toNat < catalog.length := by
          omega
        rw [List.getD_eq_getElem?_getD, List.getElem?_eq_getElem hlt]
        exact List.getElem_mem hlt
      · rw [find_recipe_eq_scan (Or.inr hcond)]
        exact scanTitle_mem_or_empty catalog (normalize query)
    · rw [find_recipe_eq_scan (Or.inl (by simpa using hdig))]
      exact scanTitle_mem_or_empty catalog (normalize query)
  · intro hno hnidx
    by_cases hdig : pyIsDigit (normalize query) = true
    · have hcond : ¬(0 ≤ (strToNat (normalize query) : Int) - 1 ∧
          (strToNat (normalize query) : Int) - 1 < (catalog.length : Int)) := by
        intro hc
        exact hnidx ⟨hdig, by omega, by omega⟩
      rw [find_recipe_eq_scan (Or.inr hcond)]
      exact scanTitle_none hno
    · rw [find_recipe_eq_scan (Or.inl (by simpa using hdig))]
      exact scanTitle_none hno
  · intro htitles hmem
    exact htitles emptyRecipe hmem rfl

/-- Witness for C8: an unresolvable query returns the empty dict. -/
theorem find_recipe_not_found_sentinel_witness :
    find_recipe_by_title_or_index [wA] ("zzz".toList) = emptyRecipe :=
  (find_recipe_not_found_sentinel [wA] ("zzz".toList)).2.1 (by decide) (by decide)

/-- C9: on a non-empty catalog, an empty or all-whitespace query normalizes
to the empty string, which is not numeric and is a substring of every title,
so the resolver returns the first catalog recipe. -/
theorem find_recipe_empty_query_first (r : Recipe) (rest : List Recipe) (query : Str)
    (h : ∀ c ∈ query, isSpace c = true) :
    find_recipe_by_title_or_index (r :: rest) query = r := by
  have hq : normalize query = [] := normalize_eq_nil_of_all_space h
  have hdig : pyIsDigit (normalize query) = false := by rw [hq]; rfl
  rw [find_recipe_eq_scan (Or.inl hdig), hq]
  have hfind : (r :: rest).find? (fun x => decide (([] : Str) <:+: normalize x.title))
      = some r := by
    rw [List.find?_cons]
    have : decide (([] : Str) <:+: normalize r.title) = true := by
      simp
    rw [this]
  unfold scanTitle
  rw [hfind]

/-- Witness for C9: a whitespace query returns the first catalog recipe. -/
theorem find_recipe_empty_query_first_witness :
    find_recipe_by_title_or_index [wA] ("  ".toList) = wA :=
  find_recipe_empty_query_first wA [] ("  ".toList) (by decide)

/-- C10: an all-digits query whose 1-based index is out of range (zero or
larger than the catalog) is not rejected immediately: the resolver falls
through to the title scan, returning the first recipe whose normalized title
contains the digit string, and the empty dict only when no title does. -/
theorem find_recipe_out_of_range_fallthrough (catalog : List Recipe) (query : Str)
    (hdig : pyIsDigit (normalize query) = true)
    (hoor : strToNat (normalize query) = 0 ∨ catalog.length < strToNat (normalize query)) :
    ((∃ r ∈ catalog, normalize query <:+: normalize r.title) →
      FirstTitleMatch catalog (normalize query)
        (find_recipe_by_title_or_index catalog query)) ∧
    ((∀ r ∈ catalog, ¬ normalize query <:+: normalize r.title) →
      find_recipe_by_title_or_index catalog query = emptyRecipe) := by
  have hcond : ¬(0 ≤ (strToNat (normalize query) : Int) - 1 ∧
      (strToNat (normalize query) : Int) - 1 < (catalog.length : Int)) := by
    rcases hoor with h | h <;> omega
  rw [find_recipe_eq_scan (Or.inr hcond)]
  exact ⟨scanTitle_found, scanTitle_none⟩

/-- Witness for C10: query 9 on a one-recipe catalog resolves by title. -/
theorem find_recipe_out_of_range_fallthrough_witness :
    FirstTitleMatch [w9] (normalize ("9".toList))
      (find_recipe_by_title_or_index [w9] ("9".toList)) :=
  (find_recipe_out_of_range_fallthrough [w9] ("9".toList) (by decide)
    (Or.inr (by decide))).1 ⟨w9, by decide, by decide⟩

end RecipeHelper
